import Mathlib

/-
Verification of the IPv4 subnetting engine of `subnetear.py`.

The engine works over Python's `ipaddress.IPv4Network` objects.  A normalized
IPv4 network is embedded as a pair of a 32-bit base address and a prefix
length; addresses are plain naturals below 2^32, dotted masks are embedded as
their four-octet lists.  Fallible operations (`raise ValueError`) are embedded
as `Except String`.  `math.ceil(math.log2 n)` on a positive integer `n` is
embedded as `Nat.clog 2 n`, which is exactly the ceiling of the base-2
logarithm; for a non-positive argument `math.log2` raises `ValueError`
("math domain error"), embedded as the error branch.
-/

namespace Subnetear

/-- An `ipaddress.IPv4Network` value: 32-bit base address plus prefix length. -/
structure IPv4Network where
  addr : Nat
  prefixlen : Nat
deriving DecidableEq

/-- A normalized IPv4 network: prefix in [0,32], address a 32-bit value with
its host bits zero (`ipaddress` guarantees this for network objects). -/
def Normalized (s : IPv4Network) : Prop :=
  s.prefixlen ≤ 32 ∧ s.addr < 2 ^ 32 ∧ s.addr % 2 ^ (32 - s.prefixlen) = 0

instance (s : IPv4Network) : Decidable (Normalized s) :=
  inferInstanceAs
    (Decidable (s.prefixlen ≤ 32 ∧ s.addr < 2 ^ 32 ∧ s.addr % 2 ^ (32 - s.prefixlen) = 0))

/-- `block_size(prefix)` from the source: number of addresses per subnet,
`2 ** (32 - prefix)`. -/
def block_size (p : Nat) : Nat := 2 ^ (32 - p)

/-- The netmask of a prefix as a 32-bit integer (the value underlying
`ipaddress.IPv4Network("0.0.0.0/p").netmask`). -/
def maskNat (p : Nat) : Nat := 2 ^ 32 - 2 ^ (32 - p)

/-- The four dotted-decimal octets of a 32-bit value, most significant first. -/
def octetsOf (n : Nat) : List Nat :=
  [n / 2 ^ 24 % 256, n / 2 ^ 16 % 256, n / 2 ^ 8 % 256, n % 256]

/-- `mask_from_prefix(prefix)` from the source: the dotted netmask of a
prefix, embedded as its octet list. -/
def mask_from_prefix (p : Nat) : List Nat := octetsOf (maskNat p)

/-- `wildcard_from_mask(mask)` from the source: each octet is `255 - o`. -/
def wildcard_from_mask (mask : List Nat) : List Nat := mask.map (fun o => 255 - o)

/-- `interesting_octet(prefix)` from the source: returns
(magic number, interesting octet (1-based), mask value in that octet). -/
def interesting_octet (p : Nat) : Nat × Nat × Nat :=
  let octs := mask_from_prefix p
  if p % 8 = 0 then (1, p / 8, 255)
  else
    let idx := p / 8
    let mask_oct := octs.getD idx 0
    (256 - mask_oct, idx + 1, mask_oct)

/-- `net.broadcast_address` of the `ipaddress` library: the highest address of
the block, `addr + block_size - 1`. -/
def broadcast_address (net : IPv4Network) : Nat :=
  net.addr + block_size net.prefixlen - 1

/-- The `SubnetInfo` dataclass of the source, with addresses as naturals and
dotted masks as octet lists. -/
structure SubnetInfo where
  subnet : IPv4Network
  netmask : List Nat
  wildcard : List Nat
  network : Nat
  broadcast : Nat
  first_host : Nat
  last_host : Nat
  usable_hosts : Nat
  magic_number : Nat
  interesting_octet : Nat
  mask_octet_value : Nat
deriving DecidableEq

/-- `describe_subnet(net)` from the source: all display fields of one subnet,
with the classic rule for prefixes up to /30 and the special /31, /32 rules. -/
def describe_subnet (net : IPv4Network) : SubnetInfo :=
  let total := block_size net.prefixlen
  let netmask := mask_from_prefix net.prefixlen
  let wildcard := wildcard_from_mask netmask
  let mio := interesting_octet net.prefixlen
  if net.prefixlen ≤ 30 then
    { subnet := net, netmask := netmask, wildcard := wildcard,
      network := net.addr, broadcast := broadcast_address net,
      first_host := net.addr + 1, last_host := broadcast_address net - 1,
      usable_hosts := total - 2, magic_number := mio.1,
      interesting_octet := mio.2.1, mask_octet_value := mio.2.2 }
  else if net.prefixlen = 31 then
    { subnet := net, netmask := netmask, wildcard := wildcard,
      network := net.addr, broadcast := broadcast_address net,
      first_host := net.addr, last_host := broadcast_address net,
      usable_hosts := 2, magic_number := mio.1,
      interesting_octet := mio.2.1, mask_octet_value := mio.2.2 }
  else
    { subnet := net, netmask := netmask, wildcard := wildcard,
      network := net.addr, broadcast := broadcast_address net,
      first_host := net.addr, last_host := net.addr,
      usable_hosts := 1, magic_number := mio.1,
      interesting_octet := mio.2.1, mask_octet_value := mio.2.2 }

/-- `list(net.subnets(new_prefix=np))` of the `ipaddress` library: the
address-ascending enumeration of the children of `net` at prefix `np`. -/
def subnetsList (net : IPv4Network) (np : Nat) : List IPv4Network :=
  (List.range (2 ^ (np - net.prefixlen))).map
    (fun i => ⟨net.addr + i * block_size np, np⟩)

/-- `subnet_by_count(net, n)` from the source.  `math.ceil(math.log2 n)` is
`Nat.clog 2 n.toNat`; for `n ≤ 0` Python's `math.log2` raises `ValueError`
("math domain error"), embedded as the first error branch. -/
def subnet_by_count (net : IPv4Network) (n : Int) :
    Except String (Nat × List IPv4Network × Nat) :=
  if n ≤ 0 then .error ("math domain error")
  else
    let borrowed_bits := Nat.clog 2 n.toNat
    let np := net.prefixlen + borrowed_bits
    if 32 < np then .error ("Zu viele Subnetze: Praefix wuerde > /32 werden.")
    else .ok (np, subnetsList net np, borrowed_bits)

/-- `subnet_by_hosts(net, hosts)` from the source.  The new prefix
`32 - host_bits` is a Python int and may be negative, so it is computed in
`Int` before the comparison with the base prefix. -/
def subnet_by_hosts (net : IPv4Network) (hosts : Int) :
    Except String (Nat × List IPv4Network × Nat) :=
  if hosts ≤ 0 then .error ("Hosts muessen >= 1 sein.")
  else
    let host_bits := Nat.clog 2 (hosts.toNat + 2)
    let np : Int := 32 - (host_bits : Int)
    if np < (net.prefixlen : Int) then
      .error ("Nicht moeglich: gewuenschte Hostanzahl passt nicht in das Ausgangsnetz.")
    else .ok (np.toNat, subnetsList net np.toNat, host_bits)

/-- The splitting core of `action_split_by_prefix` from the source: reject a
target prefix below the base prefix, otherwise enumerate the children. -/
def split_by_prefixlen (net : IPv4Network) (np : Nat) :
    Except String (List IPv4Network) :=
  if np < net.prefixlen then
    .error ("Ziel-Praefix ist kleinerer Bereich als Ausgang.")
  else .ok (subnetsList net np)

/-- Python's `ip in s` for an `IPv4Address` and an `IPv4Network`: the address
lies between the network address and the broadcast address. -/
def ip_mem (ip : Nat) (s : IPv4Network) : Bool :=
  decide (s.addr ≤ ip ∧ ip ≤ broadcast_address s)

/-- The lookup core of `action_ip_in_subnet` from the source: enumerate the
children of `base` at the target prefix and return the first one containing
`ip` (`None` when the loop finds no hit). -/
def ip_in_subnet (base : IPv4Network) (target_prefixlen : Nat) (ip : Nat) :
    Option IPv4Network :=
  (subnetsList base target_prefixlen).find? (ip_mem ip)

/-- Two networks overlap when some address lies in both. -/
def overlaps (a b : IPv4Network) : Prop :=
  ∃ x, ip_mem x a = true ∧ ip_mem x b = true

/-
Helper lemmas.
-/

lemma clog2_four : Nat.clog 2 4 = 2 := by
  have h : (4 : Nat) = 2 ^ 2 := rfl
  rw [h, Nat.clog_pow 2 2 one_lt_two]

lemma clog2_thirtytwo : Nat.clog 2 32 = 5 := by
  have h : (32 : Nat) = 2 ^ 5 := rfl
  rw [h, Nat.clog_pow 2 5 one_lt_two]

lemma block_size_pos (p : Nat) : 0 < block_size p :=
  Nat.pos_pow_of_pos _ (by norm_num)

lemma length_subnetsList (net : IPv4Network) (np : Nat) :
    (subnetsList net np).length = 2 ^ (np - net.prefixlen) := by
  simp [subnetsList]

lemma mem_subnetsList {net : IPv4Network} {np : Nat} {s : IPv4Network} :
    s ∈ subnetsList net np ↔
      ∃ i, i < 2 ^ (np - net.prefixlen) ∧
        s = ⟨net.addr + i * block_size np, np⟩ := by
  simp only [subnetsList, List.mem_map, List.mem_range]
  constructor
  · rintro ⟨i, hi, rfl⟩; exact ⟨i, hi, rfl⟩
  · rintro ⟨i, hi, rfl⟩; exact ⟨i, hi, rfl⟩

lemma getD_subnetsList (net : IPv4Network) (np i : Nat) (d : IPv4Network)
    (h : i < 2 ^ (np - net.prefixlen)) :
    (subnetsList net np).getD i d = ⟨net.addr + i * block_size np, np⟩ := by
  have hlen : i < (subnetsList net np).length := by
    rw [length_subnetsList]; exact h
  rw [List.getD_eq_getElem?_getD, List.getElem?_eq_getElem hlen]
  simp [subnetsList]

lemma ip_mem_iff {ip : Nat} {s : IPv4Network} :
    ip_mem ip s = true ↔ s.addr ≤ ip ∧ ip < s.addr + block_size s.prefixlen := by
  have hB := block_size_pos s.prefixlen
  simp only [ip_mem, broadcast_address, decide_eq_true_eq]
  omega

lemma exists_block_index {A B K x : Nat} (hB : 0 < B) (h1 : A ≤ x)
    (h2 : x < A + K * B) :
    ∃ i, i < K ∧ A + i * B ≤ x ∧ x < A + i * B + B := by
  refine ⟨(x - A) / B, ?_, ?_, ?_⟩
  · exact (Nat.div_lt_iff_lt_mul hB).mpr (by omega)
  · have h3 : (x - A) / B * B ≤ x - A := Nat.div_mul_le_self _ _
    omega
  · have h4 := Nat.div_add_mod (x - A) B
    have h5 : (x - A) % B < B := Nat.mod_lt _ hB
    have h6 : B * ((x - A) / B) = (x - A) / B * B := Nat.mul_comm _ _
    omega

lemma block_index_apart {A B x i j : Nat} (h : i < j)
    (hi2 : x < A + i * B + B) (hj1 : A + j * B ≤ x) : False := by
  have hm : (i + 1) * B ≤ j * B := Nat.mul_le_mul_right _ h
  have he : (i + 1) * B = i * B + B := by ring
  omega

lemma block_index_unique {A B x i j : Nat}
    (hi1 : A + i * B ≤ x) (hi2 : x < A + i * B + B)
    (hj1 : A + j * B ≤ x) (hj2 : x < A + j * B + B) : i = j := by
  rcases Nat.lt_trichotomy i j with h | h | h
  · exact absurd (block_index_apart h hi2 hj1) not_false
  · exact h
  · exact absurd (block_index_apart h hj2 hi1) not_false

lemma block_size_split {p np : Nat} (h1 : p ≤ np) (h2 : np ≤ 32) :
    block_size p = 2 ^ (np - p) * block_size np := by
  simp only [block_size, ← pow_add]
  congr 1
  omega

lemma subnet_by_count_ok {net : IPv4Network} {n : Int} {t : Nat}
    {subs : List IPv4Network} {b : Nat}
    (h : subnet_by_count net n = .ok (t, subs, b)) :
    0 < n ∧ b = Nat.clog 2 n.toNat ∧ t = net.prefixlen + b ∧ t ≤ 32 ∧
      subs = subnetsList net t := by
  simp only [subnet_by_count] at h
  split at h
  · simp at h
  next hn =>
    split at h
    · simp at h
    next ht =>
      simp only [Except.ok.injEq, Prod.mk.injEq] at h
      obtain ⟨h1, h2, h3⟩ := h
      refine ⟨by omega, h3.symm, by omega, by omega, ?_⟩
      rw [← h1]; exact h2.symm

lemma subnet_by_hosts_ok {net : IPv4Network} {hosts : Int} {t : Nat}
    {subs : List IPv4Network} {b : Nat}
    (h : subnet_by_hosts net hosts = .ok (t, subs, b)) :
    0 < hosts ∧ b = Nat.clog 2 (hosts.toNat + 2) ∧
      (net.prefixlen : Int) ≤ 32 - (b : Int) ∧ (t : Int) = 32 - (b : Int) ∧
      subs = subnetsList net t := by
  simp only [subnet_by_hosts] at h
  split at h
  · simp at h
  next hh =>
    split at h
    · simp at h
    next hp =>
      simp only [Except.ok.injEq, Prod.mk.injEq] at h
      obtain ⟨h1, h2, h3⟩ := h
      refine ⟨by omega, h3.symm, by omega, by omega, ?_⟩
      rw [← h1]; exact h2.symm

lemma split_by_prefixlen_ok {net : IPv4Network} {np : Nat}
    {subs : List IPv4Network}
    (h : split_by_prefixlen net np = .ok subs) :
    net.prefixlen ≤ np ∧ subs = subnetsList net np := by
  simp only [split_by_prefixlen] at h
  split at h
  · simp at h
  next hp =>
    simp only [Except.ok.injEq] at h
    exact ⟨by omega, h.symm⟩

lemma find?_eq_some_of_unique {α : Type} {l : List α} {p : α → Bool} {c : α}
    (hmem : c ∈ l) (hpc : p c = true)
    (huniq : ∀ x ∈ l, p x = true → x = c) : l.find? p = some c := by
  induction l with
  | nil => cases hmem
  | cons a l ih =>
    by_cases hpa : p a = true
    · have ha : a = c := huniq a (List.mem_cons_self a l) hpa
      rw [List.find?_cons_of_pos _ hpa, ha]
    · rw [List.find?_cons_of_neg _ (by simpa using hpa)]
      have hac : a ≠ c := fun he => hpa (he ▸ hpc)
      have hmem2 : c ∈ l := by
        rcases List.mem_cons.mp hmem with h | h
        · exact absurd h.symm hac
        · exact h
      exact ih hmem2 (fun x hx hpx => huniq x (List.mem_cons_of_mem _ hx) hpx)

/-
Claim theorems.
-/

/-- C1: for every normalized IPv4 network, `describe_subnet` applies exactly
the prefix-band rules: for prefix ≤ 30, usable hosts = 2^(32-prefix) - 2,
first host = network address + 1, last host = broadcast address - 1; for
prefix 31, usable = 2 with first host = network address and last host =
broadcast address; for prefix 32, usable = 1 with first = last = the single
address. -/
theorem describe_subnet_bands (net : IPv4Network) (_hn : Normalized net) :
    (net.prefixlen ≤ 30 →
      (describe_subnet net).usable_hosts = 2 ^ (32 - net.prefixlen) - 2 ∧
      (describe_subnet net).first_host = net.addr + 1 ∧
      (describe_subnet net).last_host = broadcast_address net - 1) ∧
    (net.prefixlen = 31 →
      (describe_subnet net).usable_hosts = 2 ∧
      (describe_subnet net).first_host = net.addr ∧
      (describe_subnet net).last_host = broadcast_address net) ∧
    (net.prefixlen = 32 →
      (describe_subnet net).usable_hosts = 1 ∧
      (describe_subnet net).first_host = net.addr ∧
      (describe_subnet net).last_host = net.addr) := by
  refine ⟨fun h30 => ?_, fun h31 => ?_, fun h32 => ?_⟩
  · simp [describe_subnet, h30, block_size]
  · simp [describe_subnet, h31]
  · simp [describe_subnet, h32]

/-- C1 witness: the bands evaluated on the concrete network 192.168.1.0/24. -/
theorem describe_subnet_bands_witness :
    Normalized ⟨3232235776, 24⟩ ∧
    ((⟨3232235776, 24⟩ : IPv4Network).prefixlen ≤ 30 →
      (describe_subnet ⟨3232235776, 24⟩).usable_hosts = 2 ^ (32 - 24) - 2 ∧
      (describe_subnet ⟨3232235776, 24⟩).first_host = 3232235776 + 1 ∧
      (describe_subnet ⟨3232235776, 24⟩).last_host =
        broadcast_address ⟨3232235776, 24⟩ - 1) :=
  ⟨by decide, fun h => (describe_subnet_bands ⟨3232235776, 24⟩ (by decide)).1 h⟩

/-- C10: for every normalized IPv4 network, the descriptor has at least one
usable host, a non-empty host range with first ≤ last (equal exactly when
the prefix is 32), network field = the base address, and broadcast =
network address + 2^(32-prefix) - 1 (so for /32 the broadcast is the single
address itself). -/
theorem describe_subnet_invariants (net : IPv4Network) (hn : Normalized net) :
    1 ≤ (describe_subnet net).usable_hosts ∧
    (describe_subnet net).first_host ≤ (describe_subnet net).last_host ∧
    ((describe_subnet net).first_host = (describe_subnet net).last_host ↔
      net.prefixlen = 32) ∧
    (describe_subnet net).network = net.addr ∧
    (describe_subnet net).broadcast = net.addr + 2 ^ (32 - net.prefixlen) - 1 := by
  have hp32 : net.prefixlen ≤ 32 := hn.1
  have hnet : (describe_subnet net).network = net.addr := by
    unfold describe_subnet
    split_ifs <;> rfl
  have hbc : (describe_subnet net).broadcast = broadcast_address net := by
    unfold describe_subnet
    split_ifs <;> rfl
  by_cases h30 : net.prefixlen ≤ 30
  · have h4 : 4 ≤ 2 ^ (32 - net.prefixlen) := by
      calc (4:Nat) = 2 ^ 2 := rfl
      _ ≤ 2 ^ (32 - net.prefixlen) := Nat.pow_le_pow_right (by norm_num) (by omega)
    have hu : (describe_subnet net).usable_hosts = block_size net.prefixlen - 2 := by
      simp [describe_subnet, h30]
    have hf : (describe_subnet net).first_host = net.addr + 1 := by
      simp [describe_subnet, h30]
    have hl : (describe_subnet net).last_host = broadcast_address net - 1 := by
      simp [describe_subnet, h30]
    rw [hu, hf, hl, hnet, hbc]
    simp only [broadcast_address, block_size]
    refine ⟨by omega, by omega, by omega, trivial, trivial⟩
  · by_cases h31 : net.prefixlen = 31
    · have hu : (describe_subnet net).usable_hosts = 2 := by
        simp [describe_subnet, h30, h31]
      have hf : (describe_subnet net).first_host = net.addr := by
        simp [describe_subnet, h30, h31]
      have hl : (describe_subnet net).last_host = broadcast_address net := by
        simp [describe_subnet, h30, h31]
      rw [hu, hf, hl, hnet, hbc]
      simp only [broadcast_address, block_size, h31]
      norm_num
    · have h32 : net.prefixlen = 32 := by omega
      have hu : (describe_subnet net).usable_hosts = 1 := by
        simp [describe_subnet, h30, h31]
      have hf : (describe_subnet net).first_host = net.addr := by
        simp [describe_subnet, h30, h31]
      have hl : (describe_subnet net).last_host = net.addr := by
        simp [describe_subnet, h30, h31]
      rw [hu, hf, hl, hnet, hbc]
      simp only [broadcast_address, block_size, h32]
      norm_num

/-- C10 witness: the invariants evaluated on the concrete network 10.0.0.0/8. -/
theorem describe_subnet_invariants_witness :
    Normalized ⟨167772160, 8⟩ ∧
    1 ≤ (describe_subnet ⟨167772160, 8⟩).usable_hosts ∧
    (describe_subnet ⟨167772160, 8⟩).broadcast = 167772160 + 2 ^ (32 - 8) - 1 :=
  ⟨by decide, (describe_subnet_invariants ⟨167772160, 8⟩ (by decide)).1,
    (describe_subnet_invariants ⟨167772160, 8⟩ (by decide)).2.2.2.2⟩

/-- C4: for every prefix p in [0,32], `interesting_octet` has exactly two
branches: if p is a multiple of 8 it returns magic 1, interesting octet p/8
and mask octet value 255; otherwise, with idx = p / 8, it returns magic
256 - maskOctetValue, interesting octet idx + 1 and the mask's value at the
0-based octet idx; for p = 26 the result is (magic 64, octet 4, value 192). -/
theorem interesting_octet_spec :
    ∀ p : Nat, p ≤ 32 →
      (p % 8 = 0 → interesting_octet p = (1, p / 8, 255)) ∧
      (p % 8 ≠ 0 →
        interesting_octet p =
          (256 - ( mask_from_prefix p).getD (p / 8) 0, p / 8 + 1,
            ( mask_from_prefix p).getD (p / 8) 0)) ∧
      interesting_octet 26 = (64, 4, 192) := by
  have H : ∀ p, p < 33 →
      (p % 8 = 0 → interesting_octet p = (1, p / 8, 255)) ∧
      (p % 8 ≠ 0 →
        interesting_octet p =
          (256 - ( mask_from_prefix p).getD (p / 8) 0, p / 8 + 1,
            ( mask_from_prefix p).getD (p / 8) 0)) ∧
      interesting_octet 26 = (64, 4, 192) := by decide
  intro p hp
  exact H p (by omega)

/-- C4 witness: the /26 magic-number decomposition. -/
theorem interesting_octet_spec_witness :
    interesting_octet 26 = (64, 4, 192) :=
  (interesting_octet_spec 26 (by decide)).2.2

/-- C8: for every prefix p in [0,32], `mask_from_prefix` and
`wildcard_from_mask` are total, producing a four-octet mask with octets at
most 255, and the wildcard equals the mask with each octet replaced by
255 minus that octet. -/
theorem mask_wildcard_spec :
    ∀ p : Nat, p ≤ 32 →
      ( mask_from_prefix p).length = 4 ∧
      (∀ o ∈ mask_from_prefix p, o ≤ 255) ∧
      wildcard_from_mask ( mask_from_prefix p) =
        ( mask_from_prefix p).map (fun o => 255 - o) ∧
      (∀ i, i < 4 →
        (wildcard_from_mask ( mask_from_prefix p)).getD i 0 =
          255 - ( mask_from_prefix p).getD i 0) := by
  have H : ∀ p, p < 33 →
      ( mask_from_prefix p).length = 4 ∧
      (∀ o ∈ mask_from_prefix p, o ≤ 255) ∧
      wildcard_from_mask ( mask_from_prefix p) =
        ( mask_from_prefix p).map (fun o => 255 - o) ∧
      (∀ i, i < 4 →
        (wildcard_from_mask ( mask_from_prefix p)).getD i 0 =
          255 - ( mask_from_prefix p).getD i 0) := by decide
  intro p hp
  exact H p (by omega)

/-- C8 witness: the mask/wildcard relation evaluated at p = 26. -/
theorem mask_wildcard_spec_witness :
    ( mask_from_prefix 26).length = 4 ∧
    wildcard_from_mask ( mask_from_prefix 26) =
      ( mask_from_prefix 26).map (fun o => 255 - o) :=
  ⟨(mask_wildcard_spec 26 (by decide)).1, (mask_wildcard_spec 26 (by decide)).2.2.1⟩

/-- The spec example `subnetByHosts(172.16.0.0/20, H=30)`, evaluated once and
shared: host bits 5, new prefix 27. -/
lemma subnet_by_hosts_concrete :
    subnet_by_hosts ⟨2886729728, 20⟩ 30 =
      .ok (27, subnetsList ⟨2886729728, 20⟩ 27, 5) := by
  have hc : Nat.clog 2 (Int.toNat 30 + 2) = 5 := clog2_thirtytwo
  simp only [subnet_by_hosts, hc]
  norm_num
  exact ⟨rfl, rfl⟩

/-- The spec example `subnetByCount(10.0.0.0/24, N=4)`, evaluated once and
shared: borrowed bits 2, new prefix 26. -/
lemma subnet_by_count_concrete :
    subnet_by_count ⟨167772160, 24⟩ 4 =
      .ok (26, subnetsList ⟨167772160, 24⟩ 26, 2) := by
  have hc : Nat.clog 2 (Int.toNat 4) = 2 := clog2_four
  simp only [subnet_by_count, hc]
  norm_num

/-- C2: for every base network and count N ≥ 1, `subnet_by_count` computes
borrowedBits = ceil(log2 N) (characterized by N ≤ 2^borrowedBits and, for
N > 1, 2^(borrowedBits-1) < N; borrowedBits = 0 for N = 1, the split then
being a no-op returning the base network itself), sets
newPrefix = basePrefix + borrowedBits, fails exactly when newPrefix > 32,
and otherwise returns 2^borrowedBits children with that newPrefix and
borrowedBits. -/
theorem subnet_by_count_spec (net : IPv4Network) (n : Int)
    (hn : Normalized net) (h1 : 1 ≤ n) :
    n.toNat ≤ 2 ^ Nat.clog 2 n.toNat ∧
    (1 < n → 2 ^ (Nat.clog 2 n.toNat - 1) < n.toNat) ∧
    (n = 1 → subnet_by_count net n = .ok (net.prefixlen, [net], 0)) ∧
    (32 < net.prefixlen + Nat.clog 2 n.toNat →
      ∃ e, subnet_by_count net n = .error e) ∧
    (net.prefixlen + Nat.clog 2 n.toNat ≤ 32 →
      subnet_by_count net n =
        .ok (net.prefixlen + Nat.clog 2 n.toNat,
          subnetsList net (net.prefixlen + Nat.clog 2 n.toNat),
          Nat.clog 2 n.toNat) ∧
      (subnetsList net (net.prefixlen + Nat.clog 2 n.toNat)).length =
        2 ^ Nat.clog 2 n.toNat) := by
  have hp32 : net.prefixlen ≤ 32 := hn.1
  have hn0 : ¬ n ≤ 0 := by omega
  refine ⟨Nat.le_pow_clog one_lt_two _, fun hlt => ?_, fun he => ?_,
    fun hgt => ?_, fun hle => ?_⟩
  · exact Nat.pow_pred_clog_lt_self one_lt_two (by omega)
  · subst he
    have hc : Nat.clog 2 (Int.toNat 1) = 0 := Nat.clog_one_right 2
    simp only [subnet_by_count, hc, Nat.add_zero]
    rw [if_neg (by omega : ¬ (1:Int) ≤ 0), if_neg (by omega : ¬ 32 < net.prefixlen)]
    have hs : subnetsList net net.prefixlen = [net] := by
      unfold subnetsList
      rw [Nat.sub_self, pow_zero]
      have hr : List.range 1 = [0] := rfl
      rw [hr]
      simp only [List.map, Nat.zero_mul, Nat.add_zero]
    rw [hs]
  · refine ⟨"Zu viele Subnetze: Praefix wuerde > /32 werden.", ?_⟩
    simp only [subnet_by_count]
    rw [if_neg hn0, if_pos hgt]
  · constructor
    · simp only [subnet_by_count]
      rw [if_neg hn0, if_neg (by omega : ¬ 32 < net.prefixlen + Nat.clog 2 n.toNat)]
    · rw [length_subnetsList, Nat.add_sub_cancel_left]

/-- C2 witness: the count split applied to 10.0.0.0/24 with N = 4. -/
theorem subnet_by_count_spec_witness :
    Int.toNat 4 ≤ 2 ^ Nat.clog 2 (Int.toNat 4) ∧
    ((1:Int) < 4 → 2 ^ (Nat.clog 2 (Int.toNat 4) - 1) < Int.toNat 4) :=
  ⟨(subnet_by_count_spec ⟨167772160, 24⟩ 4 (by decide) (by decide)).1,
   (subnet_by_count_spec ⟨167772160, 24⟩ 4 (by decide) (by decide)).2.1⟩

/-- C3: for every base network and host requirement H ≥ 1, `subnet_by_hosts`
computes hostBits = ceil(log2(H+2)) = Nat.clog 2 (H+2), sets
newPrefix = 32 - hostBits, fails exactly when newPrefix < basePrefix, and
otherwise returns the children at newPrefix; in particular
subnet_by_hosts(172.16.0.0/20, H=30) yields hostBits 5 and newPrefix 27. -/
theorem subnet_by_hosts_spec (net : IPv4Network) (hosts : Int)
    (_hn : Normalized net) (h1 : 1 ≤ hosts) :
    (32 - (Nat.clog 2 (hosts.toNat + 2) : Int) < (net.prefixlen : Int) →
      ∃ e, subnet_by_hosts net hosts = .error e) ∧
    ((net.prefixlen : Int) ≤ 32 - (Nat.clog 2 (hosts.toNat + 2) : Int) →
      subnet_by_hosts net hosts =
        .ok ((32 - (Nat.clog 2 (hosts.toNat + 2) : Int)).toNat,
          subnetsList net ((32 - (Nat.clog 2 (hosts.toNat + 2) : Int)).toNat),
          Nat.clog 2 (hosts.toNat + 2))) ∧
    subnet_by_hosts ⟨2886729728, 20⟩ 30 =
      .ok (27, subnetsList ⟨2886729728, 20⟩ 27, 5) := by
  have hh0 : ¬ hosts ≤ 0 := by omega
  refine
    ⟨fun hlt => ⟨"Nicht moeglich: gewuenschte Hostanzahl passt nicht in das Ausgangsnetz.", ?_⟩,
     fun hge => ?_, subnet_by_hosts_concrete⟩
  · simp only [subnet_by_hosts]
    rw [if_neg hh0, if_pos hlt]
  · simp only [subnet_by_hosts]
    rw [if_neg hh0,
      if_neg (by omega : ¬ 32 - (Nat.clog 2 (hosts.toNat + 2) : Int) < (net.prefixlen : Int))]

/-- C3 witness: the hosts split applied to 172.16.0.0/20 with H = 30. -/
theorem subnet_by_hosts_spec_witness :
    subnet_by_hosts ⟨2886729728, 20⟩ 30 =
      .ok (27, subnetsList ⟨2886729728, 20⟩ 27, 5) :=
  (subnet_by_hosts_spec ⟨2886729728, 20⟩ 30 (by decide) (by decide)).2.2

/-- C7: all three splitting strategies fail on an invalid parameter without
producing any subnet sequence: a non-positive count or host requirement
raises, and a target prefix coarser than the base prefix is rejected; each
failing call returns only an error value. -/
theorem validate_parameters :
    (∀ (net : IPv4Network) (n : Int), n ≤ 0 →
      ∃ e, subnet_by_count net n = .error e) ∧
    (∀ (net : IPv4Network) (hosts : Int), hosts ≤ 0 →
      ∃ e, subnet_by_hosts net hosts = .error e) ∧
    (∀ (net : IPv4Network) (t : Nat), t < net.prefixlen →
      ∃ e, split_by_prefixlen net t = .error e) := by
  refine ⟨fun net n hle => ⟨"math domain error", ?_⟩,
    fun net hosts hle => ⟨"Hosts muessen >= 1 sein.", ?_⟩,
    fun net t hlt => ⟨"Ziel-Praefix ist kleinerer Bereich als Ausgang.", ?_⟩⟩
  · simp only [subnet_by_count]
    rw [if_pos hle]
  · simp only [subnet_by_hosts]
    rw [if_pos hle]
  · simp only [split_by_prefixlen]
    rw [if_pos hlt]

/-- C5: every successful split (by count, by target prefix, or by minimum
hosts) of a base network to a new prefix t ≥ basePrefix returns exactly
the address-ascending enumeration of the base network partitioned into
t-prefix blocks: 2^(t - basePrefix) children, pairwise non-overlapping,
contiguous, with block sizes summing to the base block size. -/
theorem split_partition (base : IPv4Network) (t : Nat) (subs : List IPv4Network)
    (_hnorm : Normalized base) (ht : t ≤ 32)
    (hsplit : (∃ n b, subnet_by_count base n = .ok (t, subs, b)) ∨
      split_by_prefixlen base t = .ok subs ∨
      (∃ hosts b, subnet_by_hosts base hosts = .ok (t, subs, b))) :
    base.prefixlen ≤ t ∧
    subs = subnetsList base t ∧
    subs.length = 2 ^ (t - base.prefixlen) ∧
    List.Pairwise (fun a b => ¬ overlaps a b) subs ∧
    (∀ i, i + 1 < subs.length →
      (subs.getD (i + 1) base).addr = (subs.getD i base).addr + block_size t) ∧
    (subs.map (fun s => block_size s.prefixlen)).sum = block_size base.prefixlen := by
  have hstep : base.prefixlen ≤ t ∧ subs = subnetsList base t := by
    rcases hsplit with ⟨n, b, h⟩ | h | ⟨hosts, b, h⟩
    · obtain ⟨_, _, h3, _, h5⟩ := subnet_by_count_ok h
      exact ⟨by omega, h5⟩
    · exact split_by_prefixlen_ok h
    · obtain ⟨_, hb, h3, h4, h5⟩ := subnet_by_hosts_ok h
      exact ⟨by omega, h5⟩
  obtain ⟨hpt, hsubs⟩ := hstep
  subst hsubs
  refine ⟨hpt, rfl, length_subnetsList base t, ?_, ?_, ?_⟩
  · unfold subnetsList
    rw [List.pairwise_map]
    have hpw : List.Pairwise (· < ·) (List.range (2 ^ (t - base.prefixlen))) :=
      List.pairwise_lt_range _
    refine hpw.imp ?_
    intro i j hij hov
    obtain ⟨x, hxi, hxj⟩ := hov
    rw [ip_mem_iff] at hxi hxj
    dsimp only at hxi hxj
    exact block_index_apart hij hxi.2 hxj.1
  · intro i hi
    rw [length_subnetsList] at hi
    rw [getD_subnetsList base t (i + 1) base (by omega),
      getD_subnetsList base t i base (by omega)]
    show base.addr + (i + 1) * block_size t =
      base.addr + i * block_size t + block_size t
    ring
  · have hmap : (subnetsList base t).map (fun s => block_size s.prefixlen) =
        List.replicate (2 ^ (t - base.prefixlen)) (block_size t) := by
      unfold subnetsList
      rw [List.map_map]
      have : ((fun s : IPv4Network => block_size s.prefixlen) ∘
          fun i => (⟨base.addr + i * block_size t, t⟩ : IPv4Network)) =
          fun _ => block_size t := rfl
      rw [this, List.map_const', List.length_range]
    rw [hmap, List.sum_replicate, smul_eq_mul]
    exact (block_size_split hpt ht).symm

/-- C5 witness: splitting 10.0.0.0/24 by count 4 yields 2^2 children whose
block sizes sum to the base block size. -/
theorem split_partition_witness :
    (subnetsList ⟨167772160, 24⟩ 26).length = 2 ^ (26 - 24) ∧
    ((subnetsList ⟨167772160, 24⟩ 26).map (fun s => block_size s.prefixlen)).sum =
      block_size 24 := by
  have h := split_partition ⟨167772160, 24⟩ 26 (subnetsList ⟨167772160, 24⟩ 26)
    (by decide) (by decide) (Or.inl ⟨4, 2, subnet_by_count_concrete⟩)
  exact ⟨h.2.2.1, h.2.2.2.2.2⟩

/-- C6: for a base network, a target prefix ≥ the base prefix and a candidate
address, the membership lookup returns the unique child subnet at the target
prefix containing the candidate exactly when the candidate lies inside the
base network, and an explicit "not found" (none) otherwise; in particular for
base 192.168.1.0/24, target prefix 27 and address 192.168.1.130 the result is
192.168.1.128/27. -/
theorem ip_in_subnet_spec (base : IPv4Network) (t ip : Nat)
    (_hnorm : Normalized base) (hpt : base.prefixlen ≤ t) (ht : t ≤ 32) :
    (ip_mem ip base = true →
      ∃ c, ip_in_subnet base t ip = some c ∧ ip_mem ip c = true ∧
        c ∈ subnetsList base t ∧
        ∀ d ∈ subnetsList base t, ip_mem ip d = true → d = c) ∧
    (ip_mem ip base = false → ip_in_subnet base t ip = none) ∧
    ip_in_subnet ⟨3232235776, 24⟩ 27 3232235906 = some ⟨3232235904, 27⟩ := by
  have hB : 0 < block_size t := block_size_pos t
  refine ⟨fun hin => ?_, fun hout => ?_, by decide⟩
  · rw [ip_mem_iff] at hin
    have hcover : ip < base.addr + 2 ^ (t - base.prefixlen) * block_size t := by
      rw [← block_size_split hpt ht]
      exact hin.2
    obtain ⟨i, hiK, hi1, hi2⟩ := exists_block_index hB hin.1 hcover
    refine ⟨⟨base.addr + i * block_size t, t⟩, ?_, ?_, ?_, ?_⟩
    case refine_2 =>
      rw [ip_mem_iff]
      exact ⟨hi1, hi2⟩
    case refine_3 => exact mem_subnetsList.mpr ⟨i, hiK, rfl⟩
    case refine_4 =>
      intro d hd hmd
      obtain ⟨j, hjK, rfl⟩ := mem_subnetsList.mp hd
      rw [ip_mem_iff] at hmd
      dsimp only at hmd
      have hji : j = i := block_index_unique hmd.1 hmd.2 hi1 hi2
      rw [hji]
    case refine_1 =>
      apply find?_eq_some_of_unique (mem_subnetsList.mpr ⟨i, hiK, rfl⟩)
      · rw [ip_mem_iff]
        exact ⟨hi1, hi2⟩
      · intro d hd hmd
        obtain ⟨j, hjK, rfl⟩ := mem_subnetsList.mp hd
        rw [ip_mem_iff] at hmd
        dsimp only at hmd
        have hji : j = i := block_index_unique hmd.1 hmd.2 hi1 hi2
        rw [hji]
  · apply List.find?_eq_none.mpr
    intro s hs hmem
    obtain ⟨i, hiK, rfl⟩ := mem_subnetsList.mp hs
    rw [ip_mem_iff] at hmem
    dsimp only at hmem
    have hout2 : ¬ (base.addr ≤ ip ∧ ip < base.addr + block_size base.prefixlen) := by
      rw [← ip_mem_iff, hout]
      exact Bool.false_ne_true
    have h1 : base.addr ≤ ip := le_trans (Nat.le_add_right _ _) hmem.1
    have h2 : ip < base.addr + block_size base.prefixlen := by
      rw [block_size_split hpt ht]
      have hmul : (i + 1) * block_size t ≤ 2 ^ (t - base.prefixlen) * block_size t :=
        Nat.mul_le_mul_right _ (by omega)
      have he : (i + 1) * block_size t = i * block_size t + block_size t := by ring
      omega
    exact hout2 ⟨h1, h2⟩

/-- C6 witness: the lookup of 192.168.1.130 at /27 inside 192.168.1.0/24. -/
theorem ip_in_subnet_spec_witness :
    ip_in_subnet ⟨3232235776, 24⟩ 27 3232235906 = some ⟨3232235904, 27⟩ :=
  (ip_in_subnet_spec ⟨3232235776, 24⟩ 27 3232235906 (by decide) (by decide)
    (by decide)).2.2

/-- C9: whenever `subnet_by_hosts` succeeds for a requirement H ≥ 1, the
computed child prefix is at most 30, so every child's descriptor reports
usable_hosts = 2^hostBits - 2, which is at least H. -/
theorem subnet_by_hosts_satisfies (net : IPv4Network) (hosts : Int) (t : Nat)
    (subs : List IPv4Network) (b : Nat)
    (_h1 : 1 ≤ hosts)
    (hok : subnet_by_hosts net hosts = .ok (t, subs, b)) :
    t ≤ 30 ∧
    ∀ s ∈ subs, (describe_subnet s).usable_hosts = 2 ^ b - 2 ∧
      hosts.toNat ≤ (describe_subnet s).usable_hosts := by
  obtain ⟨hh0, hb, hple, ht, hsubs⟩ := subnet_by_hosts_ok hok
  have hpow := Nat.le_pow_clog one_lt_two (hosts.toNat + 2)
  rw [← hb] at hpow
  have hb2 : 2 ≤ b := by
    by_contra hcon
    push_neg at hcon
    have hp1 : (2:Nat) ^ b ≤ 2 ^ 1 := Nat.pow_le_pow_right (by norm_num) (by omega)
    omega
  have ht30 : t ≤ 30 := by omega
  have h32t : 32 - t = b := by omega
  refine ⟨ht30, ?_⟩
  intro s hs
  rw [hsubs] at hs
  obtain ⟨i, hiK, rfl⟩ := mem_subnetsList.mp hs
  have hu : (describe_subnet ⟨net.addr + i * block_size t, t⟩).usable_hosts =
      block_size t - 2 := by
    simp [describe_subnet, ht30]
  rw [hu]
  unfold block_size
  rw [h32t]
  exact ⟨rfl, by omega⟩

/-- C9 witness: the hosts split of 172.16.0.0/20 with H = 30 produces /27
children whose descriptors report 30 usable hosts. -/
theorem subnet_by_hosts_satisfies_witness :
    (27 : Nat) ≤ 30 ∧
    ∀ s ∈ subnetsList ⟨2886729728, 20⟩ 27,
      (describe_subnet s).usable_hosts = 2 ^ 5 - 2 ∧
      Int.toNat 30 ≤ (describe_subnet s).usable_hosts :=
  subnet_by_hosts_satisfies ⟨2886729728, 20⟩ 30 27
    (subnetsList ⟨2886729728, 20⟩ 27) 5 (by decide) subnet_by_hosts_concrete

/-- C7 witness: each strategy rejecting a concrete invalid parameter. -/
theorem validate_parameters_witness :
    (∃ e, subnet_by_count ⟨3232235776, 24⟩ 0 = .error e) ∧
    (∃ e, subnet_by_hosts ⟨3232235776, 24⟩ 0 = .error e) ∧
    (∃ e, split_by_prefixlen ⟨3232235776, 24⟩ 8 = .error e) :=
  ⟨validate_parameters.1 ⟨3232235776, 24⟩ 0 (by decide),
   validate_parameters.2.1 ⟨3232235776, 24⟩ 0 (by decide),
   validate_parameters.2.2 ⟨3232235776, 24⟩ 8 (by decide)⟩

end Subnetear
